import Mathlib

/-!
Verification of the swing-analyzer event-detection pipeline
(`swing_analyzer.py`): EMA smoothing, the start / top / impact
detectors, the plausibility-guard and fallback correction inside
`compute_tempo`, the hysteresis segmenter `segment_swings`, and the
error behaviour of the top-level entry points.

Modelling conventions:
* Python floats are modelled as exact rationals (`ℚ`); machine rounding
  is out of scope, the algorithms are analysed over exact arithmetic.
* Python `int(x)` (truncation toward zero) is `pyInt`; Python's
  banker's rounding `round(x, n)` is `pyRound`.
* `math.sqrt` is modelled by `ratSqrt`, which is exact on rationals
  whose numerator and denominator are perfect squares.  Every concrete
  sample stream used below has at most one nonzero component per
  3-axis vector, so every magnitude computed on it is exact.
* `math.atan2`/`math.degrees` produce transcendental values that no
  claim inspects; `atan2_deg` is a total rational stand-in so that
  only the (claim-relevant) control flow and error behaviour of
  `estimate_angles_from_preimpact_accel` is modelled.
* A Python function that can raise an uncaught exception is embedded
  with result type `Option _`; `none` models the raise.
-/

/-- Python `int(x)` on a rational: truncation toward zero. -/
def pyInt (q : ℚ) : ℤ :=
  if 0 ≤ q then ⌊q⌋ else ⌈q⌉

/-- Round a rational to the nearest integer, ties to even
(Python's `round` semantics over exact values). -/
def roundHalfEven (q : ℚ) : ℤ :=
  let f := ⌊q⌋
  let r := q - (f : ℚ)
  if r < 1/2 then f
  else if 1/2 < r then f + 1
  else if f % 2 = 0 then f else f + 1

/-- Python `round(q, n)` over exact rationals. -/
def pyRound (q : ℚ) (n : ℕ) : ℚ :=
  (roundHalfEven (q * 10 ^ n) : ℚ) / 10 ^ n

/-- Fuel-driven integer square root: the largest `k` with `k * k ≤ n`
(structurally recursive so that concrete runs reduce in the kernel). -/
def intSqrtGo (n : ℕ) : ℕ → ℕ → ℕ
  | 0, k => k
  | fuel + 1, k => if (k + 1) * (k + 1) ≤ n then intSqrtGo n fuel (k + 1) else k

/-- Integer square root via `intSqrtGo` (fuel `n` is always enough). -/
def intSqrt (n : ℕ) : ℕ :=
  intSqrtGo n n 0

/-- Model of `math.sqrt`, exact whenever the argument's numerator and
denominator are perfect squares (in particular on `x^2` for any `x`).
Nonpositive arguments (never produced by the magnitude sums) map to 0. -/
def ratSqrt (q : ℚ) : ℚ :=
  if q ≤ 0 then 0
  else (intSqrt q.num.toNat : ℚ) / (intSqrt q.den : ℚ)

/-- Stand-in for `math.degrees(math.atan2 y x)`.  No claim below depends
on the numeric value of an angle, only on whether the computation that
produces it raises, so the value is left unspecified (constant 0). -/
def atan2_deg (y x : ℚ) : ℚ :=
  0 * y * x

/-- Fold of Python's `max(range(n), key=...)` / the peak-tracking loops
of the source: candidate index `bi` with value `bv`, next position `i`,
replacing the candidate only on a strictly larger value (hence
first-occurrence semantics). -/
def amf_go : List ℚ → ℕ → ℕ → ℚ → ℕ
  | [], _, bi, _ => bi
  | v :: vs, i, bi, bv => if bv < v then amf_go vs (i + 1) i v else amf_go vs (i + 1) bi bv

/-- First-occurrence argmax of a list (`max(range(len(l)), key=lambda i: l[i])`);
0 on the empty list (Python would raise, callers guard non-emptiness). -/
def argmaxFirst : List ℚ → ℕ
  | [] => 0
  | v :: vs => amf_go vs 1 0 v

/-- Dual of `amf_go` for `min(..., key=...)`. -/
def aminf_go : List ℚ → ℕ → ℕ → ℚ → ℕ
  | [], _, bi, _ => bi
  | v :: vs, i, bi, bv => if v < bv then aminf_go vs (i + 1) i v else aminf_go vs (i + 1) bi bv

/-- First-occurrence argmin of a list; 0 on the empty list. -/
def argminFirst : List ℚ → ℕ
  | [] => 0
  | v :: vs => aminf_go vs 1 0 v

/-- First index `j` with `i ≤ j < n` satisfying `p`, if any. -/
def findFromIdx (n : ℕ) (p : ℕ → Bool) (i : ℕ) : Option ℕ :=
  (List.range' i (n - i)).find? p

/-- One inertial sample: optional timestamp (seconds), accelerometer
(m/s²) and gyroscope (deg/s) axes.  The Python dict accesses
`s.get(key, 0.0)` are modelled by total fields holding the default. -/
structure Sample where
  timestamp : Option ℚ
  accel_x : ℚ
  accel_y : ℚ
  accel_z : ℚ
  gyro_x : ℚ
  gyro_y : ℚ
  gyro_z : ℚ
deriving DecidableEq, Repr

/-- Result record of `compute_tempo` (the nested `timestamps` dict is
flattened into the `ts_*` fields; the `ratio` entry is `ratioVal`). -/
structure TempoResult where
  start_idx : ℕ
  top_idx : ℕ
  impact_idx : ℕ
  ts_start : ℚ
  ts_top : ℚ
  ts_impact : ℚ
  backswing_s : ℚ
  downswing_s : ℚ
  ratioVal : ℚ
  sampling_hz : ℚ
deriving DecidableEq, Repr

/-- Result record of `analyze`. -/
structure AnalyzeResult where
  clubSpeed_mps : ℚ
  clubSpeed_mph : ℚ
  clubSpeed_kph : ℚ
  attackAngle_deg : ℚ
  clubPath_deg : ℚ
  launchAngle_deg : ℚ
  spinRate_rpm : ℤ
  impactIndex : ℕ
deriving DecidableEq, Repr

/-- `_magnitude3`: Euclidean norm of a 3-axis vector. -/
def magnitude3 (x y z : ℚ) : ℚ :=
  ratSqrt (x * x + y * y + z * z)

/-- `compute_gyro_mag` (also the inline gyro-magnitude comprehension of
`compute_tempo` and the per-sample magnitudes of `find_impact_index`
and `calculate_club_speed_from_gyro_global`). -/
def compute_gyro_mag (samples : List Sample) : List ℚ :=
  samples.map fun s => magnitude3 s.gyro_x s.gyro_y s.gyro_z

/-- The inline accel-magnitude comprehension of `compute_tempo`. -/
def compute_accel_mag (samples : List Sample) : List ℚ :=
  samples.map fun s => magnitude3 s.accel_x s.accel_y s.accel_z

/-- `axis_map.get(primary_axis, gy)` of `compute_tempo`. -/
def axisOf (samples : List Sample) (primary : String) : List ℚ :=
  if primary = "gyro_x" then samples.map Sample.gyro_x
  else if primary = "gyro_y" then samples.map Sample.gyro_y
  else if primary = "gyro_z" then samples.map Sample.gyro_z
  else samples.map Sample.gyro_y

/-- Tail of `smooth_ema`: `out.append(alpha*v + (1-alpha)*out[-1])`. -/
def smooth_ema_aux (alpha prev : ℚ) : List ℚ → List ℚ
  | [] => []
  | v :: vs =>
    let x := alpha * v + (1 - alpha) * prev
    x :: smooth_ema_aux alpha x vs

/-- `smooth_ema`: single-pole EMA, `out[0] = in[0]`,
`out[i] = alpha*in[i] + (1-alpha)*out[i-1]`. -/
def smooth_ema (values : List ℚ) (alpha : ℚ) : List ℚ :=
  match values with
  | [] => []
  | v :: vs => v :: smooth_ema_aux alpha v vs

/-- `estimate_dt`: mean of the positive consecutive timestamp deltas,
defaulting to 0.01 s when fewer than two timestamps (or no positive
delta) exist. -/
def estimate_dt (samples : List Sample) : ℚ :=
  let times := samples.filterMap Sample.timestamp
  if 2 ≤ times.length then
    let diffs := (times.zip times.tail).map fun p => p.2 - p.1
    let pos := diffs.filter fun d => decide (0 < d)
    if pos.isEmpty then 1/100 else pos.sum / (pos.length : ℚ)
  else 1/100

/-- The run-counting loop of `detect_start` over the precomputed list
`above` of booleans, carrying the current index `i` and the length
`run` of the current all-above run; on `run ≥ minLen` it returns the
run's first index `i + 1 - minLen` (the source's `i - min_len + 1`). -/
def ds_go (minLen : ℕ) : List Bool → ℕ → ℕ → Option ℕ
  | [], _, _ => none
  | ok :: rest, i, run =>
    let run' := if ok then run + 1 else 0
    if minLen ≤ run' then some (i + 1 - minLen) else ds_go minLen rest (i + 1) run'

/-- `detect_start`: first index where the signal stays strictly above
the threshold for `min_len = max(1, int((min_ms/1000)*hz))` samples;
fallback: first-occurrence argmax; empty input: 0. -/
def detect_start (gyro_mag : List ℚ) (hz : ℚ) (threshold_deg_s : ℚ) (min_ms : ℕ) : ℕ :=
  if gyro_mag.isEmpty then 0
  else
    let min_len := max 1 (pyInt ((min_ms : ℚ) / 1000 * hz)).toNat
    let above := gyro_mag.map fun g => decide (threshold_deg_s < g)
    match ds_go min_len above 0 0 with
    | some s => s
    | none => argmaxFirst gyro_mag

/-- The scanning loop of `detect_top` (`for i in range(s+1, len(...))`),
iterating over the remaining suffix `gyro_axis[i:]` while carrying the
absolute index `i` and `prev`: a zero `prev` adopts the current value
without a flip check, a nonzero `prev` returns the first index whose
value is `≤ 0` (for positive `prev`) resp. `≥ 0` (for negative `prev`). -/
def dt_go : List ℚ → ℕ → ℚ → Option ℕ
  | [], _, _ => none
  | cur :: rest, i, prev =>
    if prev = 0 then dt_go rest (i + 1) cur
    else if (0 < prev ∧ cur ≤ 0) ∨ (prev < 0 ∧ 0 ≤ cur) then some i
    else dt_go rest (i + 1) cur

/-- `detect_top`: first sign flip after `start_idx` (see `dt_go`);
fallback: `s + argmin(signal[s:])`, which raises (`none`) when the tail
`signal[s:]` is empty, i.e. when `s ≥ len(signal)` on nonempty input. -/
def detect_top (gyro_axis : List ℚ) (start_idx : ℤ) : Option ℕ :=
  if gyro_axis.isEmpty then some 0
  else
    let s := start_idx.toNat        -- max(0, start_idx)
    let prev := gyro_axis.getD s 0  -- gyro_axis[s] if s < len else 0.0
    match dt_go (gyro_axis.drop (s + 1)) (s + 1) prev with
    | some i => some i
    | none =>
      let tail := gyro_axis.drop s
      if tail.isEmpty then none     -- min() over an empty range raises
      else some (s + argminFirst tail)

/-- The outer scanning loop of `detect_impact` over the remaining
suffix `accel_mag[i:]` with absolute index `i`: first index whose value
meets the threshold, returning the first-occurrence peak of the
following `refractory` samples (the source's inner `for j` loop is the
strictly-greater peak fold `amf_go` over `accel_mag[i+1:j_end]` started
at candidate `i`). -/
def di_scan (sig : List ℚ) (thr : ℚ) (refractory : ℕ) : List ℚ → ℕ → Option ℕ
  | [], _ => none
  | cur :: rest, i =>
    if thr ≤ cur then
      some (amf_go (rest.take (min sig.length (i + refractory) - (i + 1))) (i + 1) i cur)
    else di_scan sig thr refractory rest (i + 1)

/-- `detect_impact`: scan from `max(0, start_from)` for the first value
`≥ threshold_g * 9.81`, return the peak within the refractory window
`max(1, int((refractory_ms/1000)*hz))`; fallback: argmax of the whole
signal; empty input: 0. -/
def detect_impact (accel_mag : List ℚ) (hz : ℚ) (threshold_g : ℚ) (refractory_ms : ℕ)
    (start_from : ℤ) : ℕ :=
  if accel_mag.isEmpty then 0
  else
    let thr := threshold_g * (981/100)
    let i0 := start_from.toNat
    let refractory := max 1 (pyInt ((refractory_ms : ℚ) / 1000 * hz)).toNat
    match di_scan accel_mag thr refractory (accel_mag.drop i0) i0 with
    | some p => p
    | none => argmaxFirst accel_mag

/-- `compute_tempo` (lines 150–231): derive the sampling rate, build and
smooth the magnitude signals, run the three detectors, apply the
plausibility guard (re-running the impact detector from `start_idx`
when `impact_idx ≤ start_idx`), apply the one-shot fallback top
correction when the downswing duration is implausible, and assemble the
result.  `none` models an uncaught exception (the fallback's
`min(range(a, b), ...)` raises `IndexError` when `b` exceeds the
signal length). -/
def compute_tempo (samples : List Sample) (primary_axis : String)
    (start_threshold_deg_s : ℚ) (start_min_ms : ℕ)
    (impact_threshold_g : ℚ) (refractory_ms : ℕ)
    (allow_fallback : Bool) : Option TempoResult :=
  if samples.isEmpty then none   -- raise ValueError('No samples provided')
  else
    let dt := estimate_dt samples
    let hz := 1 / max dt (1/1000000)
    let gyro_mag_s := smooth_ema (compute_gyro_mag samples) (1/5)
    let accel_mag_s := smooth_ema (compute_accel_mag samples) (1/5)
    let axis_s := smooth_ema (axisOf samples primary_axis) (1/5)
    let start_idx := detect_start gyro_mag_s hz start_threshold_deg_s start_min_ms
    match detect_top axis_s (start_idx : ℤ) with
    | none => none
    | some top0 =>
      let impact0 := detect_impact accel_mag_s hz impact_threshold_g refractory_ms ((top0 : ℤ) + 1)
      let impact_idx :=
        if impact0 ≤ start_idx then
          detect_impact accel_mag_s hz impact_threshold_g refractory_ms (start_idx : ℤ)
        else impact0
      let downswing0 : ℚ := max 0 ((((impact_idx : ℤ) - (max start_idx top0 : ℕ)) : ℤ) * dt)
      let corrected : Option ℕ :=
        if allow_fallback ∧ (downswing0 < 12/100 ∨ 6/10 < downswing0) then
          let a := start_idx + 1                 -- max(start_idx + 1, 0)
          let b : ℤ := max ((a : ℤ) + 1) (min ((gyro_mag_s.length : ℤ) - 1) ((impact_idx : ℤ) - 1))
          if (a : ℤ) < b then
            -- min(range(a, b), key=...) raises IndexError when b > len
            if b ≤ (gyro_mag_s.length : ℤ) then
              some (a + argminFirst ((gyro_mag_s.drop a).take (b - a).toNat))
            else none
          else some top0
        else some top0
      match corrected with
      | none => none
      | some top_idx =>
        let start_ts := (start_idx : ℚ) * dt
        let top_ts := (top_idx : ℚ) * dt
        let impact_ts := (impact_idx : ℚ) * dt
        let backswing := max 0 (top_ts - start_ts)
        let downswing := max (1/1000000) (impact_ts - top_ts)
        some { start_idx := start_idx, top_idx := top_idx, impact_idx := impact_idx,
               ts_start := pyRound start_ts 6, ts_top := pyRound top_ts 6,
               ts_impact := pyRound impact_ts 6,
               backswing_s := pyRound backswing 6, downswing_s := pyRound downswing 6,
               ratioVal := pyRound (backswing / downswing) 3, sampling_hz := pyRound hz 3 }

/-- `find_impact_index`: first-occurrence peak of the gyro magnitude
(the source's strict-`>` loop from sentinel `-1.0` is the fold
`amf_go`); 0 on empty input. -/
def find_impact_index (samples : List Sample) : ℕ :=
  amf_go (compute_gyro_mag samples) 0 0 (-1)

/-- `estimate_angles_from_preimpact_accel`: mean dynamic acceleration
over a short window strictly before impact, mapped to attack/path
angles.  `none` models the `IndexError` raised when the window's end
index reaches past the sample list (only possible on empty input). -/
def estimate_angles_from_preimpact_accel (samples : List Sample) (impact_idx : ℕ) (dt : ℚ)
    (pre_window_s : ℚ) : Option (ℚ × ℚ) :=
  let win_len := max 3 (pyInt (pre_window_s / max dt (1/1000000))).toNat
  let endI := ((impact_idx : ℤ) - 2).toNat            -- max(0, impact_idx - 2)
  let startI := (((endI : ℤ) - win_len) + 1).toNat    -- max(0, end - win_len + 1)
  if endI < startI then some (0, 0)
  else if endI < samples.length then
    let window := (samples.drop startI).take (endI + 1 - startI)
    let count : ℚ := ((endI + 1 - startI : ℕ) : ℚ)
    if count = 0 then some (0, 0)
    else
      let mean_ax := (window.map Sample.accel_x).sum / count
      let mean_ay := (window.map fun s => s.accel_y + 49/5).sum / count
      let mean_az := (window.map Sample.accel_z).sum / count
      let horiz := ratSqrt (mean_ax * mean_ax + mean_az * mean_az)
      some (atan2_deg mean_ay (max horiz (1/1000000)), atan2_deg mean_ax (-mean_az))
  else none

/-- `calculate_club_speed_from_gyro_global`: peak gyro magnitude scaled
by the simulator calibration (`kph = 1.5 * omega`, returned in m/s). -/
def calculate_club_speed_from_gyro_global (samples : List Sample) : ℚ :=
  let omega := (compute_gyro_mag samples).foldl (fun om m => if om < m then m else om) 0
  (3/2) * omega / (18/5)

/-- `approximate_launch_and_spin`: fixed empirical launch/spin model. -/
def approximate_launch_and_spin (club_speed_mps attack_angle_deg : ℚ) : ℚ × ℚ :=
  (10 + (2/5) * attack_angle_deg + (1/20) * club_speed_mps,
   2500 + 40 * attack_angle_deg + 8 * club_speed_mps)

/-- `analyze` (lines 364–382): impact index, pre-impact angles, club
speed and the derived launch/spin figures.  The unused
`club_length_m` parameter is kept for signature fidelity.  `none`
models the uncaught `IndexError` that
`estimate_angles_from_preimpact_accel` raises on an empty stream. -/
def analyze (samples : List Sample) (club_length_m : ℚ) : Option AnalyzeResult :=
  let dt := estimate_dt samples
  let impact_idx := find_impact_index samples
  match estimate_angles_from_preimpact_accel samples impact_idx dt (6/100) with
  | none => none
  | some (attack_angle_deg, club_path_deg) =>
    let club_speed_mps := calculate_club_speed_from_gyro_global samples
    let lsp := approximate_launch_and_spin club_speed_mps attack_angle_deg
    some { clubSpeed_mps := pyRound club_speed_mps 2,
           clubSpeed_mph := pyRound (club_speed_mps * (223694/100000)) 1,
           clubSpeed_kph := pyRound (club_speed_mps * (18/5)) 1,
           attackAngle_deg := pyRound attack_angle_deg 1,
           clubPath_deg := pyRound club_path_deg 1,
           launchAngle_deg := pyRound lsp.1 1,
           spinRate_rpm := roundHalfEven lsp.2,
           impactIndex := impact_idx }

/-- The hysteresis loop of `segment_swings` over the magnitude list:
state `inSwing` with open index `s` and below-threshold counter `cnt`;
emitted segments are recorded as index ranges `(start, end)` standing
for the source's slices `samples[start:end+1]`.  At the end of the
stream a still-open segment is closed at the last index. -/
def seg_go (startThr endThr : ℚ) (minLen gapLen : ℕ) :
    List ℚ → ℕ → Bool → ℕ → ℕ → List (ℕ × ℕ) → List (ℕ × ℕ)
  | [], i, inSwing, s, _, acc =>
    if inSwing then
      if minLen ≤ i - s then acc ++ [(s, i - 1)] else acc
    else acc
  | m :: rest, i, inSwing, s, cnt, acc =>
    if inSwing then
      if m < endThr then
        let cnt' := cnt + 1
        if gapLen ≤ cnt' then
          let e := max s (i + 1 - gapLen)   -- max(start_idx, i - gap_len + 1)
          let acc' := if minLen ≤ e + 1 - s then acc ++ [(s, e)] else acc
          seg_go startThr endThr minLen gapLen rest (i + 1) false s 0 acc'
        else seg_go startThr endThr minLen gapLen rest (i + 1) true s cnt' acc
      else seg_go startThr endThr minLen gapLen rest (i + 1) true s 0 acc
    else
      if startThr ≤ m then seg_go startThr endThr minLen gapLen rest (i + 1) true i 0 acc
      else seg_go startThr endThr minLen gapLen rest (i + 1) false s cnt acc

/-- `segment_swings` (lines 397–446): hysteresis segmentation of a
continuous stream by gyro magnitude; returns the emitted segments as
index ranges `(start, end)` (the source returns the corresponding
sample slices `samples[start:end+1]`, whose lengths are `end+1-start`). -/
def segment_swings (samples : List Sample) (dt : ℚ)
    (start_threshold end_threshold min_swing_duration_s min_gap_s : ℚ) : List (ℕ × ℕ) :=
  let mags := compute_gyro_mag samples
  let min_len := max 1 (pyInt (min_swing_duration_s / max dt (1/1000000))).toNat
  let gap_len := max 1 (pyInt (min_gap_s / max dt (1/1000000))).toNat
  seg_go start_threshold end_threshold min_len gap_len mags 0 false 0 0 []

/-! ### Declarative (specification-side) descriptions of the detectors -/

/-- A run of `minLen` values all strictly above `thr` starts at `s`
(the code's acceptance condition, with strict comparison and the
floor-based run length). -/
def startRunStrict (sig : List ℚ) (thr : ℚ) (minLen s : ℕ) : Bool :=
  decide (s + minLen ≤ sig.length) &&
    (List.range minLen).all fun k => decide (thr < sig.getD (s + k) 0)

/-- A window of `minLen` values all `≥ thr` starts at `s` (the claim's
acceptance condition for the start detector). -/
def startRunGE (sig : List ℚ) (thr : ℚ) (minLen s : ℕ) : Bool :=
  decide (s + minLen ≤ sig.length) &&
    (List.range minLen).all fun k => decide (thr ≤ sig.getD (s + k) 0)

/-- A run of `minLen` consecutive `true` entries of `above` ends at `j`. -/
def endRun (above : List Bool) (minLen j : ℕ) : Bool :=
  decide (minLen ≤ j + 1) &&
    (List.range minLen).all fun k => above.getD (j + 1 - minLen + k) false

/-- Declarative description of `detect_start` as the code computes it:
the first index beginning a run of `max(1, ⌊(min_ms/1000)·hz⌋)` values
strictly above the threshold; first-occurrence argmax when no run
exists; 0 on empty input. -/
def spec_detect_start (gyro_mag : List ℚ) (hz threshold_deg_s : ℚ) (min_ms : ℕ) : ℕ :=
  if gyro_mag.isEmpty then 0
  else
    let min_len := max 1 (pyInt ((min_ms : ℚ) / 1000 * hz)).toNat
    match findFromIdx gyro_mag.length (startRunStrict gyro_mag threshold_deg_s min_len) 0 with
    | some s => s
    | none => argmaxFirst gyro_mag

/-- The start detector exactly as claim C4 words it: run length
`⌈(min_ms/1000)·hz⌉`, values `≥` the threshold. -/
def claimC4_start (gyro_mag : List ℚ) (hz threshold_deg_s : ℚ) (min_ms : ℕ) : ℕ :=
  if gyro_mag.isEmpty then 0
  else
    let min_len := ⌈(min_ms : ℚ) / 1000 * hz⌉₊
    match findFromIdx gyro_mag.length (startRunGE gyro_mag threshold_deg_s min_len) 0 with
    | some s => s
    | none => argmaxFirst gyro_mag

/-- The sign of `cur` is incompatible with (zero or opposite to) the
sign of the nonzero reference `p` — the flip condition of `detect_top`. -/
def signIncompat (p cur : ℚ) : Bool :=
  decide ((0 < p ∧ cur ≤ 0) ∨ (p < 0 ∧ 0 ≤ cur))

/-- Declarative description of `detect_top` as the code computes it:
find the first nonzero value at or after `s` (zeros before it are
skipped without a flip check); from there, return the first later
index whose value is zero or of opposite sign; otherwise fall back to
`s + argmin(signal[s:])`, raising when that tail is empty. -/
def spec_detect_top (gyro_axis : List ℚ) (start_idx : ℤ) : Option ℕ :=
  if gyro_axis.isEmpty then some 0
  else
    let s := start_idx.toNat
    let fallback : Option ℕ :=
      if (gyro_axis.drop s).isEmpty then none
      else some (s + argminFirst (gyro_axis.drop s))
    match findFromIdx gyro_axis.length (fun j => decide (gyro_axis.getD j 0 ≠ 0)) s with
    | none => fallback
    | some j =>
      match findFromIdx gyro_axis.length
          (fun i => signIncompat (gyro_axis.getD j 0) (gyro_axis.getD i 0)) (j + 1) with
      | some i => some i
      | none => fallback

/-- The top detector exactly as claim C2 words it: the first index
after `s` whose sign differs from the sign at `s`, where an exact zero
inherits the previous nonzero sign and never itself triggers a flip
(so only strictly opposite-signed values flip); same argmin fallback. -/
def claimC2_top (gyro_axis : List ℚ) (start_idx : ℤ) : Option ℕ :=
  if gyro_axis.isEmpty then some 0
  else
    let s := start_idx.toNat
    let p := gyro_axis.getD s 0
    match findFromIdx gyro_axis.length
        (fun i => decide ((0 < p ∧ gyro_axis.getD i 0 < 0) ∨ (p < 0 ∧ 0 < gyro_axis.getD i 0)))
        (s + 1) with
    | some i => some i
    | none =>
      if (gyro_axis.drop s).isEmpty then none
      else some (s + argminFirst (gyro_axis.drop s))

/-- Declarative description of `detect_impact` as the code computes it:
first index at or after `max(0, start_from)` whose value reaches
`threshold_g·9.81`, replaced by the first-occurrence argmax of the
window of the following `max(1, ⌊(refractory_ms/1000)·hz⌋)` samples;
whole-signal argmax when the threshold is never reached; 0 on empty. -/
def spec_detect_impact (accel_mag : List ℚ) (hz threshold_g : ℚ) (refractory_ms : ℕ)
    (start_from : ℤ) : ℕ :=
  if accel_mag.isEmpty then 0
  else
    let thr := threshold_g * (981/100)
    let refractory := max 1 (pyInt ((refractory_ms : ℚ) / 1000 * hz)).toNat
    match findFromIdx accel_mag.length (fun k => decide (thr ≤ accel_mag.getD k 0))
        start_from.toNat with
    | some c => c + argmaxFirst ((accel_mag.drop c).take refractory)
    | none => argmaxFirst accel_mag

/-- The impact detector exactly as claim C5 words it: the peak window
holds `⌈(refractory_ms/1000)·hz⌉` samples. -/
def claimC5_impact (accel_mag : List ℚ) (hz threshold_g : ℚ) (refractory_ms : ℕ)
    (start_from : ℤ) : ℕ :=
  if accel_mag.isEmpty then 0
  else
    let thr := threshold_g * (981/100)
    let refractory := ⌈(refractory_ms : ℚ) / 1000 * hz⌉₊
    match findFromIdx accel_mag.length (fun k => decide (thr ≤ accel_mag.getD k 0))
        start_from.toNat with
    | some c => c + argmaxFirst ((accel_mag.drop c).take refractory)
    | none => argmaxFirst accel_mag

/-! ### Concrete sample streams used by counterexamples and witnesses -/

/-- Build a sample with a timestamp, one accelerometer-x and one
gyroscope-y component; all magnitudes of such samples are exact under
`ratSqrt`. -/
def mkSample (t ax gy : ℚ) : Sample :=
  { timestamp := some t, accel_x := ax, accel_y := 0, accel_z := 0,
    gyro_x := 0, gyro_y := gy, gyro_z := 0 }

/-- Ten samples at 100 Hz with strictly decreasing gyro rate and an
acceleration spike on the final sample (claim C3, window part). -/
def exDecreasing : List Sample :=
  (List.range 10).map fun k =>
    mkSample ((k : ℚ) / 100) (if k = 9 then 50 else 0) (100 - 10 * (k : ℚ))

/-- Ten samples at 100 Hz with strictly increasing gyro rate and an
acceleration spike at index 5 (claims C3 and C6 witnesses). -/
def exIncreasing : List Sample :=
  (List.range 10).map fun k =>
    mkSample ((k : ℚ) / 100) (if k = 5 then 100 else 0) (10 * (k : ℚ) + 10)

/-- Three samples at 100 Hz, rising gyro rate, all-zero accelerometer:
`detect_start` falls back to the argmax `N-1`, and the fallback top
correction of `compute_tempo` then indexes past the signal (claim C7). -/
def exCrash : List Sample :=
  [mkSample 0 0 0, mkSample (1/100) 0 5, mkSample (2/100) 0 10]

/-- Three samples at 100 Hz whose accel magnitude peaks at index 0 and
never reaches the impact threshold while the gyro peaks at index 1:
after the plausibility guard the impact index precedes the start index
(claim C6 counterexample). -/
def exGuard : List Sample :=
  [mkSample 0 5 0, mkSample (1/100) 0 10, mkSample (2/100) 0 0]

/-- Three samples with gyro magnitude `[30, 30, 0]`, segmented at
`dt = 0.07 s`: the emitted segment has 3 samples, below the claim's
`⌈0.25/0.07⌉ = 4` but at the code's `⌊0.25/0.07⌋ = 3` (claim C1). -/
def exSeg : List Sample :=
  [{ timestamp := none, accel_x := 0, accel_y := 0, accel_z := 0,
     gyro_x := 30, gyro_y := 0, gyro_z := 0 },
   { timestamp := none, accel_x := 0, accel_y := 0, accel_z := 0,
     gyro_x := 30, gyro_y := 0, gyro_z := 0 },
   { timestamp := none, accel_x := 0, accel_y := 0, accel_z := 0,
     gyro_x := 0, gyro_y := 0, gyro_z := 0 }]

/-- The tempo result of `compute_tempo` on `exIncreasing` with the
default configuration (used to instantiate hypothesis-bearing
theorems on a concrete run). -/
def tempoIncreasingResult : TempoResult :=
  { start_idx := 0, top_idx := 1, impact_idx := 5,
    ts_start := 0, ts_top := 1/100, ts_impact := 1/20,
    backswing_s := 1/100, downswing_s := 1/25, ratioVal := 1/4, sampling_hz := 100 }

/-! ### Lemmas about the generic search and fold helpers -/

lemma findFromIdx_stop {n i : ℕ} (p : ℕ → Bool) (h : n ≤ i) : findFromIdx n p i = none := by
  unfold findFromIdx
  rw [Nat.sub_eq_zero_of_le h]
  rfl

lemma findFromIdx_step {n i : ℕ} (p : ℕ → Bool) (h : i < n) :
    findFromIdx n p i = if p i then some i else findFromIdx n p (i + 1) := by
  unfold findFromIdx
  rw [show n - i = (n - (i + 1)) + 1 by omega, List.range'_succ]
  by_cases hp : p i
  · rw [List.find?_cons_of_pos _ hp, if_pos hp]
  · rw [List.find?_cons_of_neg _ (by simpa using hp), if_neg hp]

lemma findFromIdx_some_aux (p : ℕ → Bool) (n : ℕ) :
    ∀ m i j, n - i ≤ m → findFromIdx n p i = some j →
      i ≤ j ∧ j < n ∧ p j = true ∧ ∀ k, i ≤ k → k < j → p k = false := by
  intro m
  induction m with
  | zero =>
    intro i j hm h
    rw [findFromIdx_stop p (by omega)] at h
    exact absurd h (by simp)
  | succ m ih =>
    intro i j hm h
    by_cases hi : i < n
    · rw [findFromIdx_step p hi] at h
      by_cases hp : p i
      · rw [if_pos hp] at h
        cases h
        exact ⟨le_refl i, hi, hp, fun k h1 h2 => absurd (lt_of_le_of_lt h1 h2) (lt_irrefl i)⟩
      · rw [if_neg hp] at h
        obtain ⟨h1, h2, h3, h4⟩ := ih (i + 1) j (by omega) h
        refine ⟨by omega, h2, h3, fun k hk1 hk2 => ?_⟩
        rcases Nat.eq_or_lt_of_le hk1 with hk | hk
        · rw [← hk]; simpa using hp
        · exact h4 k hk hk2
    · rw [findFromIdx_stop p (by omega)] at h
      exact absurd h (by simp)

lemma findFromIdx_some {n i j : ℕ} {p : ℕ → Bool} (h : findFromIdx n p i = some j) :
    i ≤ j ∧ j < n ∧ p j = true ∧ ∀ k, i ≤ k → k < j → p k = false :=
  findFromIdx_some_aux p n (n - i) i j le_rfl h

lemma findFromIdx_none_aux (p : ℕ → Bool) (n : ℕ) :
    ∀ m i, n - i ≤ m → findFromIdx n p i = none → ∀ k, i ≤ k → k < n → p k = false := by
  intro m
  induction m with
  | zero => intro i hm _ k hk1 hk2; omega
  | succ m ih =>
    intro i hm h k hk1 hk2
    have hi : i < n := lt_of_le_of_lt hk1 hk2
    rw [findFromIdx_step p hi] at h
    by_cases hp : p i
    · rw [if_pos hp] at h; exact absurd h (by simp)
    · rw [if_neg hp] at h
      rcases Nat.eq_or_lt_of_le hk1 with hk | hk
      · rw [← hk]; simpa using hp
      · exact ih (i + 1) (by omega) h k hk hk2

lemma findFromIdx_none {n i : ℕ} {p : ℕ → Bool} (h : findFromIdx n p i = none) :
    ∀ k, i ≤ k → k < n → p k = false :=
  findFromIdx_none_aux p n (n - i) i le_rfl h

lemma findFromIdx_eq_some_aux (p : ℕ → Bool) (n : ℕ) :
    ∀ m i j, n - i ≤ m → i ≤ j → j < n → p j = true →
      (∀ k, i ≤ k → k < j → p k = false) → findFromIdx n p i = some j := by
  intro m
  induction m with
  | zero => intro i j hm h1 h2 _ _; omega
  | succ m ih =>
    intro i j hm h1 h2 h3 h4
    rw [findFromIdx_step p (by omega)]
    rcases Nat.eq_or_lt_of_le h1 with hij | hij
    · rw [hij, if_pos (hij ▸ h3)]
    · rw [if_neg (by simp [h4 i le_rfl hij]), ih (i + 1) j (by omega) hij h2 h3
        (fun k hk1 hk2 => h4 k (by omega) hk2)]

lemma findFromIdx_eq_some {n i j : ℕ} {p : ℕ → Bool} (h1 : i ≤ j) (h2 : j < n)
    (h3 : p j = true) (h4 : ∀ k, i ≤ k → k < j → p k = false) :
    findFromIdx n p i = some j :=
  findFromIdx_eq_some_aux p n (n - i) i j le_rfl h1 h2 h3 h4

lemma findFromIdx_eq_none_aux (p : ℕ → Bool) (n : ℕ) :
    ∀ m i, n - i ≤ m → (∀ k, i ≤ k → k < n → p k = false) → findFromIdx n p i = none := by
  intro m
  induction m with
  | zero => intro i hm _; exact findFromIdx_stop p (by omega)
  | succ m ih =>
    intro i hm h
    by_cases hi : i < n
    · rw [findFromIdx_step p hi, if_neg (by simp [h i le_rfl hi])]
      exact ih (i + 1) (by omega) fun k hk1 hk2 => h k (by omega) hk2
    · exact findFromIdx_stop p (by omega)

lemma findFromIdx_eq_none {n i : ℕ} {p : ℕ → Bool}
    (h : ∀ k, i ≤ k → k < n → p k = false) : findFromIdx n p i = none :=
  findFromIdx_eq_none_aux p n (n - i) i le_rfl h

lemma findFromIdx_congr_aux (p q : ℕ → Bool) (n : ℕ) :
    ∀ m i, n - i ≤ m → (∀ k, i ≤ k → k < n → p k = q k) →
      findFromIdx n p i = findFromIdx n q i := by
  intro m
  induction m with
  | zero =>
    intro i hm _
    rw [findFromIdx_stop p (by omega), findFromIdx_stop q (by omega)]
  | succ m ih =>
    intro i hm h
    by_cases hi : i < n
    · rw [findFromIdx_step p hi, findFromIdx_step q hi, h i le_rfl hi,
        ih (i + 1) (by omega) fun k hk1 hk2 => h k (by omega) hk2]
    · rw [findFromIdx_stop p (by omega), findFromIdx_stop q (by omega)]

lemma findFromIdx_congr {n i : ℕ} {p q : ℕ → Bool}
    (h : ∀ k, i ≤ k → k < n → p k = q k) : findFromIdx n p i = findFromIdx n q i :=
  findFromIdx_congr_aux p q n (n - i) i le_rfl h

lemma amf_go_shift (xs : List ℚ) :
    ∀ i bi bv d, amf_go xs (i + d) (bi + d) bv = amf_go xs i bi bv + d := by
  induction xs with
  | nil => intro i bi bv d; rfl
  | cons v vs ih =>
    intro i bi bv d
    simp only [amf_go]
    by_cases h : bv < v
    · rw [if_pos h, if_pos h, show i + d + 1 = (i + 1) + d by omega]
      exact ih (i + 1) i v d
    · rw [if_neg h, if_neg h, show i + d + 1 = (i + 1) + d by omega]
      exact ih (i + 1) bi bv d

lemma amf_go_ge (xs : List ℚ) :
    ∀ i bi bv, bi ≤ i → bi ≤ amf_go xs i bi bv := by
  induction xs with
  | nil => intro i bi bv _; exact le_refl bi
  | cons v vs ih =>
    intro i bi bv h
    simp only [amf_go]
    by_cases hv : bv < v
    · rw [if_pos hv]; exact le_trans h (ih (i + 1) i v (by omega))
    · rw [if_neg hv]; exact ih (i + 1) bi bv (by omega)

/-! ### The smoothing fixed point -/

lemma smooth_ema_aux_const (alpha c : ℚ) :
    ∀ n, smooth_ema_aux alpha c (List.replicate n c) = List.replicate n c := by
  intro n
  induction n with
  | zero => rfl
  | succ n ih =>
    simp only [List.replicate, smooth_ema_aux]
    rw [show alpha * c + (1 - alpha) * c = c by ring, ih]

/-! ### Characterization of the top detector -/

lemma signIncompat_same_sign {p q : ℚ} (h : (0 < p ∧ 0 < q) ∨ (p < 0 ∧ q < 0)) (x : ℚ) :
    signIncompat p x = signIncompat q x := by
  rcases h with ⟨hp, hq⟩ | ⟨hp, hq⟩ <;>
    simp only [signIncompat, decide_eq_decide] <;>
    constructor <;> rintro (⟨h1, h2⟩ | ⟨h1, h2⟩) <;> first
      | exact Or.inl ⟨by linarith, h2⟩
      | exact Or.inr ⟨by linarith, h2⟩

lemma dt_go_nonzero (sig : List ℚ) :
    ∀ (rest : List ℚ) (i : ℕ) (prev : ℚ), rest = sig.drop i → prev ≠ 0 →
      dt_go rest i prev =
        findFromIdx sig.length (fun k => signIncompat prev (sig.getD k 0)) i := by
  intro rest
  induction rest with
  | nil =>
    intro i prev hdrop _
    have hlen : sig.length ≤ i := by
      have := congrArg List.length hdrop
      simp only [List.length_nil, List.length_drop] at this
      omega
    rw [findFromIdx_stop _ hlen]
    rfl
  | cons cur rest' ih =>
    intro i prev hdrop hprev
    have hi : i < sig.length := by
      by_contra hc
      rw [List.drop_eq_nil_of_le (by omega)] at hdrop
      exact absurd hdrop (by simp)
    have hcons : cur :: rest' = sig[i] :: sig.drop (i + 1) := by
      rw [hdrop, List.drop_eq_getElem_cons hi]
    injection hcons with hcur hrest
    have hcurD : sig.getD i 0 = cur := by
      rw [List.getD_eq_getElem _ _ hi, ← hcur]
    simp only [dt_go]
    rw [if_neg hprev, findFromIdx_step _ hi]
    by_cases hflip : (0 < prev ∧ cur ≤ 0) ∨ (prev < 0 ∧ 0 ≤ cur)
    · rw [if_pos hflip, if_pos (by rw [hcurD]; simpa [signIncompat] using hflip)]
    · rw [if_neg hflip, if_neg (by rw [hcurD]; simpa [signIncompat] using hflip)]
      have hsame : (0 < prev ∧ 0 < cur) ∨ (prev < 0 ∧ cur < 0) := by
        rcases lt_or_gt_of_ne hprev with hneg | hpos
        · exact Or.inr ⟨hneg, by by_contra hc; exact hflip (Or.inr ⟨hneg, by linarith⟩)⟩
        · exact Or.inl ⟨hpos, by by_contra hc; exact hflip (Or.inl ⟨hpos, by linarith⟩)⟩
      have hne : cur ≠ 0 := by
        rcases hsame with ⟨_, hq⟩ | ⟨_, hq⟩
        · exact ne_of_gt hq
        · exact ne_of_lt hq
      rw [ih (i + 1) cur hrest hne]
      exact findFromIdx_congr fun k _ _ =>
        signIncompat_same_sign hsame (sig.getD k 0) |>.symm

lemma dt_go_zero (sig : List ℚ) :
    ∀ (rest : List ℚ) (i : ℕ), rest = sig.drop i →
      dt_go rest i 0 =
        Option.bind (findFromIdx sig.length (fun j => decide (sig.getD j 0 ≠ 0)) i)
          (fun j => dt_go (sig.drop (j + 1)) (j + 1) (sig.getD j 0)) := by
  intro rest
  induction rest with
  | nil =>
    intro i hdrop
    have hlen : sig.length ≤ i := by
      have := congrArg List.length hdrop
      simp only [List.length_nil, List.length_drop] at this
      omega
    rw [findFromIdx_stop _ hlen]
    rfl
  | cons cur rest' ih =>
    intro i hdrop
    have hi : i < sig.length := by
      by_contra hc
      rw [List.drop_eq_nil_of_le (by omega)] at hdrop
      exact absurd hdrop (by simp)
    have hcons : cur :: rest' = sig[i] :: sig.drop (i + 1) := by
      rw [hdrop, List.drop_eq_getElem_cons hi]
    injection hcons with hcur hrest
    have hcurD : sig.getD i 0 = cur := by
      rw [List.getD_eq_getElem _ _ hi, ← hcur]
    simp only [dt_go, if_true]
    rw [findFromIdx_step _ hi]
    by_cases hz : cur = 0
    · have hd : (decide (sig.getD i 0 ≠ 0)) = false := by rw [hcurD, hz]; decide
      rw [if_neg (by rw [hd]; exact Bool.false_ne_true), hz]
      exact ih (i + 1) hrest
    · have hd : (decide (sig.getD i 0 ≠ 0)) = true := by
        simp only [decide_eq_true_eq, hcurD]
        exact hz
      rw [if_pos hd]
      show dt_go rest' (i + 1) cur = dt_go (sig.drop (i + 1)) (i + 1) (sig.getD i 0)
      rw [hrest, hcurD]

lemma detect_top_eq_spec (sig : List ℚ) (sIdx : ℤ) :
    detect_top sig sIdx = spec_detect_top sig sIdx := by
  simp only [detect_top, spec_detect_top]
  by_cases hemp : sig.isEmpty
  · rw [if_pos hemp, if_pos hemp]
  · rw [if_neg hemp, if_neg hemp]
    by_cases hlt : sIdx.toNat < sig.length
    · by_cases hprev : sig.getD sIdx.toNat 0 = 0
      · have hd : (decide (sig.getD sIdx.toNat 0 ≠ 0)) = false := by rw [hprev]; decide
        have hskip : findFromIdx sig.length (fun j => decide (sig.getD j 0 ≠ 0)) sIdx.toNat
            = findFromIdx sig.length (fun j => decide (sig.getD j 0 ≠ 0)) (sIdx.toNat + 1) := by
          rw [findFromIdx_step _ hlt]
          exact if_neg (by rw [hd]; exact Bool.false_ne_true)
        rw [hprev, dt_go_zero sig (sig.drop (sIdx.toNat + 1)) (sIdx.toNat + 1) rfl, hskip]
        cases hfind : findFromIdx sig.length (fun j => decide (sig.getD j 0 ≠ 0))
            (sIdx.toNat + 1) with
        | none => rfl
        | some j =>
          have hjne : sig.getD j 0 ≠ 0 := by simpa using (findFromIdx_some hfind).2.2.1
          show (match dt_go (sig.drop (j + 1)) (j + 1) (sig.getD j 0) with
                | some i => some i
                | none =>
                  if (List.drop sIdx.toNat sig).isEmpty = true then none
                  else some (sIdx.toNat + argminFirst (List.drop sIdx.toNat sig))) = _
          rw [dt_go_nonzero sig (sig.drop (j + 1)) (j + 1) (sig.getD j 0) rfl hjne]
      · have hd : (decide (sig.getD sIdx.toNat 0 ≠ 0)) = true := by simpa using hprev
        have hfirst : findFromIdx sig.length (fun j => decide (sig.getD j 0 ≠ 0)) sIdx.toNat
            = some sIdx.toNat := by
          rw [findFromIdx_step _ hlt]
          exact if_pos hd
        rw [dt_go_nonzero sig (sig.drop (sIdx.toNat + 1)) (sIdx.toNat + 1)
          (sig.getD sIdx.toNat 0) rfl hprev, hfirst]
    · have hprev : sig.getD sIdx.toNat 0 = 0 := List.getD_eq_default _ _ (by omega)
      rw [hprev, dt_go_zero sig (sig.drop (sIdx.toNat + 1)) (sIdx.toNat + 1) rfl,
        findFromIdx_stop (fun j => decide (sig.getD j 0 ≠ 0))
          (by omega : sig.length ≤ sIdx.toNat + 1),
        findFromIdx_stop (fun j => decide (sig.getD j 0 ≠ 0))
          (by omega : sig.length ≤ sIdx.toNat)]
      rfl

/-! ### Characterization of the start detector -/

lemma startRunStrict_iff {sig : List ℚ} {thr : ℚ} {minLen s : ℕ} :
    startRunStrict sig thr minLen s = true ↔
      s + minLen ≤ sig.length ∧ ∀ k, k < minLen → thr < sig.getD (s + k) 0 := by
  simp [startRunStrict, List.all_eq_true, List.mem_range]

lemma endRun_iff {above : List Bool} {minLen j : ℕ} :
    endRun above minLen j = true ↔
      minLen ≤ j + 1 ∧ ∀ k, k < minLen → above.getD (j + 1 - minLen + k) false = true := by
  simp [endRun, List.all_eq_true, List.mem_range]

lemma getD_map_decide (sig : List ℚ) (thr : ℚ) (p : ℕ) (hp : p < sig.length) :
    (sig.map fun g => decide (thr < g)).getD p false = decide (thr < sig.getD p 0) := by
  rw [List.getD_eq_getElem _ _ (by simpa using hp), List.getD_eq_getElem _ _ hp,
    List.getElem_map]

lemma ds_go_eq (minLen : ℕ) (above : List Bool) (h1 : 1 ≤ minLen) :
    ∀ (rest : List Bool) (i run : ℕ),
      rest = above.drop i →
      run ≤ i → run < minLen →
      (∀ k, k < run → above.getD (i - 1 - k) false = true) →
      (i = run ∨ above.getD (i - run - 1) false = false) →
      ds_go minLen rest i run =
        Option.map (fun j => j + 1 - minLen)
          (findFromIdx above.length (endRun above minLen) i) := by
  intro rest
  induction rest with
  | nil =>
    intro i run hdrop _ _ _ _
    have hlen : above.length ≤ i := by
      have := congrArg List.length hdrop
      simp only [List.length_nil, List.length_drop] at this
      omega
    rw [findFromIdx_stop _ hlen]
    rfl
  | cons b rest' ih =>
    intro i run hdrop hri hrm htrail hmaxi
    have hi : i < above.length := by
      by_contra hc
      rw [List.drop_eq_nil_of_le (by omega)] at hdrop
      exact absurd hdrop (by simp)
    have hcons : b :: rest' = above[i] :: above.drop (i + 1) := by
      rw [hdrop, List.drop_eq_getElem_cons hi]
    injection hcons with hbeq hrest
    have hb : above.getD i false = b := by
      rw [List.getD_eq_getElem _ _ hi, ← hbeq]
    simp only [ds_go]
    by_cases hfire : minLen ≤ (if b then run + 1 else 0)
    · rw [if_pos hfire]
      have hbt : b = true := by
        by_contra hbf
        simp [hbf] at hfire
        omega
      rw [hbt] at hfire hb
      rw [if_pos rfl] at hfire
      have hrun1 : run + 1 = minLen := by omega
      have hend : endRun above minLen i = true := by
        rw [endRun_iff]
        refine ⟨by omega, fun k hk => ?_⟩
        rcases Nat.lt_or_ge k run with hkr | hkr
        · have := htrail (run - 1 - k) (by omega)
          rw [show i - 1 - (run - 1 - k) = i + 1 - minLen + k by omega] at this
          exact this
        · rw [show i + 1 - minLen + k = i by omega]
          exact hb
      rw [findFromIdx_step _ hi, if_pos hend]
      rfl
    · rw [if_neg hfire]
      have hend : endRun above minLen i = false := by
        by_contra hc
        have hct := endRun_iff.mp (by simpa using hc)
        by_cases hbt : b = true
        · rw [hbt] at hfire hb
          rw [if_pos rfl] at hfire
          have hml : run + 2 ≤ minLen := by omega
          rcases hmaxi with heq | hfalse
          · omega
          · have := hct.2 (minLen - run - 2) (by omega)
            rw [show i + 1 - minLen + (minLen - run - 2) = i - run - 1 by omega] at this
            rw [this] at hfalse
            exact absurd hfalse (by simp)
        · have hbf : b = false := by simpa using hbt
          rw [hbf] at hb
          have := hct.2 (minLen - 1) (by omega)
          rw [show i + 1 - minLen + (minLen - 1) = i by omega, hb] at this
          exact absurd this (by simp)
      have hstep : findFromIdx above.length (endRun above minLen) i
          = findFromIdx above.length (endRun above minLen) (i + 1) := by
        rw [findFromIdx_step _ hi]
        exact if_neg (by rw [hend]; exact Bool.false_ne_true)
      rw [hstep]
      by_cases hbt : b = true
      · rw [hbt] at hfire hb ⊢
        rw [if_pos rfl] at hfire
        refine ih (i + 1) (run + 1) hrest (by omega) (by omega) ?_ ?_
        · intro k hk
          cases k with
          | zero =>
            rw [show i + 1 - 1 - 0 = i by omega]
            exact hb
          | succ k1 =>
            rw [show i + 1 - 1 - (k1 + 1) = i - 1 - k1 by omega]
            exact htrail k1 (by omega)
        · rcases hmaxi with heq | hfalse
          · exact Or.inl (by omega)
          · exact Or.inr (by rw [show i + 1 - (run + 1) - 1 = i - run - 1 by omega]; exact hfalse)
      · have hbf : b = false := by simpa using hbt
        rw [hbf] at hfire hb ⊢
        refine ih (i + 1) 0 hrest (by omega) (by omega) (by omega) ?_
        exact Or.inr (by rw [show i + 1 - 0 - 1 = i by omega]; exact hb)

lemma endRun_to_startRun {sig : List ℚ} {thr : ℚ} {minLen j : ℕ} (h1 : 1 ≤ minLen)
    (hj : j < sig.length)
    (he : endRun (sig.map fun g => decide (thr < g)) minLen j = true) :
    startRunStrict sig thr minLen (j + 1 - minLen) = true := by
  obtain ⟨hml, hwin⟩ := endRun_iff.mp he
  rw [startRunStrict_iff]
  refine ⟨by omega, fun k hk => ?_⟩
  have := hwin k hk
  rw [getD_map_decide sig thr _ (by omega)] at this
  simpa using this

lemma startRun_to_endRun {sig : List ℚ} {thr : ℚ} {minLen s : ℕ} (h1 : 1 ≤ minLen)
    (hs : startRunStrict sig thr minLen s = true) :
    endRun (sig.map fun g => decide (thr < g)) minLen (s + minLen - 1) = true := by
  obtain ⟨hlen, hwin⟩ := startRunStrict_iff.mp hs
  rw [endRun_iff]
  refine ⟨by omega, fun k hk => ?_⟩
  rw [show s + minLen - 1 + 1 - minLen + k = s + k by omega,
    getD_map_decide sig thr _ (by omega)]
  simpa using hwin k hk

lemma ds_find_eq (sig : List ℚ) (thr : ℚ) (minLen : ℕ) (h1 : 1 ≤ minLen) :
    Option.map (fun j => j + 1 - minLen)
        (findFromIdx (sig.map fun g => decide (thr < g)).length
          (endRun (sig.map fun g => decide (thr < g)) minLen) 0)
      = findFromIdx sig.length (startRunStrict sig thr minLen) 0 := by
  have hlen : (sig.map fun g => decide (thr < g)).length = sig.length :=
    List.length_map _ _
  cases hE : findFromIdx (sig.map fun g => decide (thr < g)).length
      (endRun (sig.map fun g => decide (thr < g)) minLen) 0 with
  | none =>
    have hnone := findFromIdx_none hE
    refine Eq.symm (findFromIdx_eq_none fun s _ hs => ?_)
    by_contra hc
    have hst : startRunStrict sig thr minLen s = true := by simpa using hc
    have hsl : s + minLen ≤ sig.length := (startRunStrict_iff.mp hst).1
    have := hnone (s + minLen - 1) (Nat.zero_le _) (by omega)
    rw [startRun_to_endRun h1 hst] at this
    exact absurd this (by simp)
  | some j =>
    obtain ⟨_, hjlt, hjrun, hjmin⟩ := findFromIdx_some hE
    have hjl : j < sig.length := by omega
    have hml : minLen ≤ j + 1 := (endRun_iff.mp hjrun).1
    show some (j + 1 - minLen) = findFromIdx sig.length (startRunStrict sig thr minLen) 0
    refine Eq.symm (findFromIdx_eq_some (Nat.zero_le _) (by omega)
      (endRun_to_startRun h1 hjl hjrun) fun s _ hs => ?_)
    by_contra hc
    have hst : startRunStrict sig thr minLen s = true := by simpa using hc
    have := hjmin (s + minLen - 1) (Nat.zero_le _) (by omega)
    rw [startRun_to_endRun h1 hst] at this
    exact absurd this (by simp)

lemma detect_start_eq_spec (gyro_mag : List ℚ) (hz thr : ℚ) (ms : ℕ) :
    detect_start gyro_mag hz thr ms = spec_detect_start gyro_mag hz thr ms := by
  simp only [detect_start, spec_detect_start]
  by_cases hemp : gyro_mag.isEmpty
  · rw [if_pos hemp, if_pos hemp]
  · rw [if_neg hemp, if_neg hemp]
    have h1 : 1 ≤ max 1 (pyInt ((ms : ℚ) / 1000 * hz)).toNat := le_max_left _ _
    rw [ds_go_eq (max 1 (pyInt ((ms : ℚ) / 1000 * hz)).toNat)
        (gyro_mag.map fun g => decide (thr < g)) h1
        (gyro_mag.map fun g => decide (thr < g)) 0 0 (List.drop_zero _).symm
        (le_refl 0) (by omega) (fun k hk => absurd hk (by omega)) (Or.inl rfl),
      ds_find_eq gyro_mag thr _ h1]

/-! ### Characterization of the impact detector -/

lemma di_scan_eq (sig : List ℚ) (thr : ℚ) (refr : ℕ) (hr : 1 ≤ refr) :
    ∀ (rest : List ℚ) (i : ℕ), rest = sig.drop i →
      di_scan sig thr refr rest i =
        Option.map (fun c => c + argmaxFirst ((sig.drop c).take refr))
          (findFromIdx sig.length (fun k => decide (thr ≤ sig.getD k 0)) i) := by
  intro rest
  induction rest with
  | nil =>
    intro i hdrop
    have hlen : sig.length ≤ i := by
      have := congrArg List.length hdrop
      simp only [List.length_nil, List.length_drop] at this
      omega
    rw [findFromIdx_stop _ hlen]
    rfl
  | cons cur rest' ih =>
    intro i hdrop
    have hi : i < sig.length := by
      by_contra hc
      rw [List.drop_eq_nil_of_le (by omega)] at hdrop
      exact absurd hdrop (by simp)
    have hcons : cur :: rest' = sig[i] :: sig.drop (i + 1) := by
      rw [hdrop, List.drop_eq_getElem_cons hi]
    injection hcons with hcur hrest
    have hcurD : sig.getD i 0 = cur := by
      rw [List.getD_eq_getElem _ _ hi, ← hcur]
    simp only [di_scan]
    rw [findFromIdx_step _ hi]
    by_cases hthr : thr ≤ cur
    · rw [if_pos hthr, if_pos (by rw [hcurD]; simpa using hthr)]
      show _ = some (i + argmaxFirst ((sig.drop i).take refr))
      have hdropi : sig.drop i = cur :: sig.drop (i + 1) := by
        rw [← hdrop, hrest]
      have htake : (sig.drop i).take refr
          = cur :: (sig.drop (i + 1)).take (refr - 1) := by
        rw [hdropi, show refr = (refr - 1) + 1 by omega, List.take_succ_cons,
          Nat.add_sub_cancel]
      rw [htake]
      show some _ = some (i + amf_go ((sig.drop (i + 1)).take (refr - 1)) 1 0 cur)
      have hsl : rest'.take (min sig.length (i + refr) - (i + 1))
          = (sig.drop (i + 1)).take (refr - 1) := by
        rw [hrest]
        apply List.take_eq_take.mpr
        simp only [List.length_drop]
        omega
      have hshift : amf_go ((sig.drop (i + 1)).take (refr - 1)) (i + 1) i cur
          = i + amf_go ((sig.drop (i + 1)).take (refr - 1)) 1 0 cur := by
        have hs := amf_go_shift ((sig.drop (i + 1)).take (refr - 1)) 1 0 cur i
        rw [show 1 + i = i + 1 by omega, show 0 + i = i by omega] at hs
        rw [hs, Nat.add_comm]
      rw [hsl, hshift]
    · rw [if_neg hthr, if_neg (by rw [hcurD]; simpa using hthr)]
      exact ih (i + 1) hrest

lemma detect_impact_eq_spec (accel_mag : List ℚ) (hz threshold_g : ℚ)
    (refractory_ms : ℕ) (start_from : ℤ) :
    detect_impact accel_mag hz threshold_g refractory_ms start_from
      = spec_detect_impact accel_mag hz threshold_g refractory_ms start_from := by
  simp only [detect_impact, spec_detect_impact]
  by_cases hemp : accel_mag.isEmpty
  · rw [if_pos hemp, if_pos hemp]
  · rw [if_neg hemp, if_neg hemp]
    rw [di_scan_eq accel_mag (threshold_g * (981/100))
      (max 1 (pyInt ((refractory_ms : ℚ) / 1000 * hz)).toNat) (le_max_left _ _)
      (accel_mag.drop start_from.toNat) start_from.toNat rfl]
    cases findFromIdx accel_mag.length
        (fun k => decide (threshold_g * (981/100) ≤ accel_mag.getD k 0)) start_from.toNat
      <;> rfl

lemma detect_impact_ge (accel_mag : List ℚ) (hz threshold_g : ℚ)
    (refractory_ms : ℕ) (start_from : ℤ)
    (hcross : ∃ k, start_from.toNat ≤ k ∧ k < accel_mag.length ∧
      threshold_g * (981/100) ≤ accel_mag.getD k 0) :
    start_from.toNat ≤ detect_impact accel_mag hz threshold_g refractory_ms start_from := by
  obtain ⟨k, hk1, hk2, hk3⟩ := hcross
  have hemp : accel_mag.isEmpty = false := by
    cases accel_mag
    · simp at hk2
    · rfl
  simp only [detect_impact, hemp, Bool.false_eq_true, if_false]
  rw [di_scan_eq accel_mag (threshold_g * (981/100))
    (max 1 (pyInt ((refractory_ms : ℚ) / 1000 * hz)).toNat) (le_max_left _ _)
    (accel_mag.drop start_from.toNat) start_from.toNat rfl]
  cases hF : findFromIdx accel_mag.length
      (fun j => decide (threshold_g * (981/100) ≤ accel_mag.getD j 0)) start_from.toNat with
  | none =>
    have := findFromIdx_none hF k hk1 hk2
    rw [decide_eq_false_iff_not] at this
    exact absurd hk3 this
  | some c =>
    obtain ⟨hc1, _, _, _⟩ := findFromIdx_some hF
    exact le_trans hc1 (Nat.le_add_right c _)

/-! ### The segmenter invariant -/

lemma seg_go_inv (startThr endThr : ℚ) (minLen gapLen : ℕ) (hgap : 1 ≤ gapLen) :
    ∀ (mags : List ℚ) (i : ℕ) (inSwing : Bool) (s cnt : ℕ) (acc : List (ℕ × ℕ)),
      (inSwing = true → s < i) →
      (∀ p ∈ acc, p.1 ≤ p.2 ∧ minLen ≤ p.2 + 1 - p.1) →
      (∀ p ∈ acc, p.2 < (if inSwing then s else i)) →
      acc.Pairwise (fun a b => a.2 < b.1) →
      (∀ p ∈ seg_go startThr endThr minLen gapLen mags i inSwing s cnt acc,
        p.1 ≤ p.2 ∧ minLen ≤ p.2 + 1 - p.1 ∧ p.2 < i + mags.length) ∧
      (seg_go startThr endThr minLen gapLen mags i inSwing s cnt acc).Pairwise
        (fun a b => a.2 < b.1) := by
  intro mags
  induction mags with
  | nil =>
    intro i inSwing s cnt acc hs hlen hbound hpw
    cases inSwing with
    | false =>
      simp only [seg_go, Bool.false_eq_true, if_false]
      refine ⟨fun p hp => ⟨(hlen p hp).1, (hlen p hp).2, ?_⟩, hpw⟩
      have := hbound p hp
      simp only [Bool.false_eq_true, if_false] at this
      simpa using this
    | true =>
      have hsi := hs rfl
      simp only [seg_go, if_true]
      by_cases hemit : minLen ≤ i - s
      · rw [if_pos hemit]
        constructor
        · intro p hp
          rcases List.mem_append.mp hp with hp | hp
          · have h2 := hbound p hp
            simp only [if_true] at h2
            exact ⟨(hlen p hp).1, (hlen p hp).2, by simp only [List.length_nil]; omega⟩
          · have : p = (s, i - 1) := by simpa using hp
            rw [this]
            refine ⟨by omega, by omega, by simp only [List.length_nil]; omega⟩
        · rw [List.pairwise_append]
          refine ⟨hpw, List.pairwise_singleton _ _, fun a ha b hb => ?_⟩
          have : b = (s, i - 1) := by simpa using hb
          rw [this]
          have := hbound a ha
          simp only [if_true] at this
          exact this
      · rw [if_neg hemit]
        refine ⟨fun p hp => ⟨(hlen p hp).1, (hlen p hp).2, ?_⟩, hpw⟩
        have := hbound p hp
        simp only [if_true] at this
        simp only [List.length_nil]
        omega
  | cons m rest ih =>
    intro i inSwing s cnt acc hs hlen hbound hpw
    have hgoal : ∀ (inSwing' : Bool) (s' cnt' : ℕ) (acc' : List (ℕ × ℕ)),
        (inSwing' = true → s' < i + 1) →
        (∀ p ∈ acc', p.1 ≤ p.2 ∧ minLen ≤ p.2 + 1 - p.1) →
        (∀ p ∈ acc', p.2 < (if inSwing' then s' else i + 1)) →
        acc'.Pairwise (fun a b => a.2 < b.1) →
        (∀ p ∈ seg_go startThr endThr minLen gapLen rest (i + 1) inSwing' s' cnt' acc',
          p.1 ≤ p.2 ∧ minLen ≤ p.2 + 1 - p.1 ∧ p.2 < i + (m :: rest).length) ∧
        (seg_go startThr endThr minLen gapLen rest (i + 1) inSwing' s' cnt' acc').Pairwise
          (fun a b => a.2 < b.1) := by
      intro inSwing' s' cnt' acc' h1 h2 h3 h4
      obtain ⟨ha, hb⟩ := ih (i + 1) inSwing' s' cnt' acc' h1 h2 h3 h4
      refine ⟨fun p hp => ?_, hb⟩
      obtain ⟨c1, c2, c3⟩ := ha p hp
      exact ⟨c1, c2, by simp only [List.length_cons]; omega⟩
    cases inSwing with
    | false =>
      simp only [seg_go, Bool.false_eq_true, if_false]
      by_cases hstart : startThr ≤ m
      · rw [if_pos hstart]
        refine hgoal true i 0 acc (fun _ => by omega) hlen ?_ hpw
        intro p hp
        have := hbound p hp
        simpa using this
      · rw [if_neg hstart]
        refine hgoal false s cnt acc (by simp) hlen ?_ hpw
        intro p hp
        have := hbound p hp
        simp only [Bool.false_eq_true, if_false] at this ⊢
        omega
    | true =>
      have hsi := hs rfl
      simp only [seg_go, if_true]
      by_cases hend : m < endThr
      · rw [if_pos hend]
        by_cases hclose : gapLen ≤ cnt + 1
        · rw [if_pos hclose]
          by_cases hemit : minLen ≤ max s (i + 1 - gapLen) + 1 - s
          · rw [if_pos hemit]
            have hle : max s (i + 1 - gapLen) < i + 1 := by omega
            refine hgoal false s 0 (acc ++ [(s, max s (i + 1 - gapLen))]) (by simp) ?_ ?_ ?_
            · intro p hp
              rcases List.mem_append.mp hp with hp | hp
              · exact hlen p hp
              · have : p = (s, max s (i + 1 - gapLen)) := by simpa using hp
                rw [this]
                exact ⟨le_max_left _ _, hemit⟩
            · intro p hp
              simp only [Bool.false_eq_true, if_false]
              rcases List.mem_append.mp hp with hp | hp
              · have := hbound p hp
                simp only [if_true] at this
                omega
              · have : p = (s, max s (i + 1 - gapLen)) := by simpa using hp
                rw [this]
                exact hle
            · rw [List.pairwise_append]
              refine ⟨hpw, List.pairwise_singleton _ _, fun a ha b hb => ?_⟩
              have : b = (s, max s (i + 1 - gapLen)) := by simpa using hb
              rw [this]
              have := hbound a ha
              simp only [if_true] at this
              exact this
          · rw [if_neg hemit]
            refine hgoal false s 0 acc (by simp) hlen ?_ hpw
            intro p hp
            have := hbound p hp
            simp only [if_true] at this
            simp only [Bool.false_eq_true, if_false]
            omega
        · rw [if_neg hclose]
          refine hgoal true s (cnt + 1) acc (fun _ => by omega) hlen ?_ hpw
          intro p hp
          have := hbound p hp
          simpa using this
      · rw [if_neg hend]
        refine hgoal true s 0 acc (fun _ => by omega) hlen ?_ hpw
        intro p hp
        have := hbound p hp
        simpa using this

/-! ### Claim theorems

Batteries marks the rational-arithmetic primitives `@[irreducible]`;
they are made semireducible here so that concrete runs of the pipeline
evaluate inside `decide`. -/

section ClaimTheorems

attribute [local semireducible] Rat.add Rat.sub Rat.mul Rat.inv Rat.ofScientific

/-- C9: for every constant signal and every alpha in (0, 1], smoothing
(`smooth_ema`) returns the same constant signal unchanged: the constant
signal is a fixed point of the EMA `out[0]=in[0]`,
`out[i]=alpha*in[i]+(1-alpha)*out[i-1]`. -/
theorem claim_C9_smoothing_fixed_point (c : ℚ) (n : ℕ) (alpha : ℚ)
    (h0 : 0 < alpha) (h1 : alpha ≤ 1) :
    smooth_ema (List.replicate n c) alpha = List.replicate n c := by
  cases n with
  | zero => rfl
  | succ n =>
    rw [List.replicate_succ]
    simp only [smooth_ema]
    rw [smooth_ema_aux_const]

/-- Witness for C9 at `c = 7`, `n = 3`, `alpha = 1/2`. -/
theorem claim_C9_witness :
    (0 : ℚ) < 1/2 ∧ (1/2 : ℚ) ≤ 1 ∧
      smooth_ema (List.replicate 3 (7 : ℚ)) (1/2) = List.replicate 3 (7 : ℚ) :=
  ⟨by norm_num, by norm_num,
    claim_C9_smoothing_fixed_point 7 3 (1/2) (by norm_num) (by norm_num)⟩

/-- C10: `detect_top` is total only under `start_idx < length`: on a
nonempty signal with `start_idx ≥ length` the no-flip fallback takes the
argmin of the empty tail `signal[s:]` and raises (modelled by `none`). -/
theorem claim_C10_top_precondition (sig : List ℚ) (start_idx : ℤ)
    (hne : sig ≠ []) (hge : (sig.length : ℤ) ≤ start_idx) :
    detect_top sig start_idx = none := by
  have hlen : sig.length ≤ start_idx.toNat := by omega
  simp only [detect_top]
  rw [if_neg (by simpa using hne)]
  rw [List.drop_eq_nil_of_le (by omega : sig.length ≤ start_idx.toNat + 1),
    List.drop_eq_nil_of_le hlen]
  rfl

/-- Witness for C10 at the nonempty signal `[1, 2]` with `start_idx = 5`. -/
theorem claim_C10_witness :
    ([1, 2] : List ℚ) ≠ [] ∧ ((([1, 2] : List ℚ).length : ℤ) ≤ 5) ∧
      detect_top [1, 2] 5 = none :=
  ⟨by decide, by decide, claim_C10_top_precondition [1, 2] 5 (by decide) (by decide)⟩

/-- C8: both top-level entry points fail (raise, modelled by `none`)
rather than return a result on an empty sample stream, for every
configuration: `compute_tempo` raises its explicit `ValueError`,
`analyze` raises an `IndexError` from the pre-impact window access. -/
theorem claim_C8_empty_input (primary : String) (start_thr : ℚ) (start_ms : ℕ)
    (impact_g : ℚ) (refr_ms : ℕ) (fb : Bool) (club_length : ℚ) :
    compute_tempo [] primary start_thr start_ms impact_g refr_ms fb = none ∧
      analyze [] club_length = none :=
  ⟨rfl, rfl⟩

/-- C2 counterexample: on the signal `[1, 0, -5]` with `start = 0`, the
claim ("an exact zero inherits the previous nonzero sign and never
itself triggers a flip") predicts index 2, but `detect_top` returns 1:
the zero at index 1 satisfies the code's flip test `cur ≤ 0`. -/
theorem claim_C2_counterexample :
    detect_top [1, 0, -5] 0 = some 1 ∧ claimC2_top [1, 0, -5] 0 = some 2 ∧
      (some 1 : Option ℕ) ≠ some 2 := by
  decide

/-- C2 (amended): scanning forward from `start`, `detect_top` returns
the first index after the first nonzero value at-or-after `start` whose
value is zero or of opposite sign to that nonzero value (an exact zero
does trigger the flip return; only zeros encountered while the tracked
previous value is still zero are skipped); if no such index exists it
returns `start + argmin(signal[start:])` (raising on an empty tail).
In particular, for a signal positive on [0,50) and negative on [50,100)
with `start = 0`, it returns 50. -/
theorem claim_C2_top :
    (∀ (gyro_axis : List ℚ) (start_idx : ℤ),
      detect_top gyro_axis start_idx = spec_detect_top gyro_axis start_idx) ∧
    detect_top (List.replicate 50 (1 : ℚ) ++ List.replicate 50 (-1 : ℚ)) 0 = some 50 :=
  ⟨detect_top_eq_spec, by decide⟩

/-- C4 counterexample: (a) with values `[50, 40, 45, 45]`, threshold 45,
100 Hz and 20 ms dwell the claim (values `≥` threshold) predicts index 2
but the code (strict `>`) finds no run and falls back to the argmax 0;
(b) with `[0, 50, 0, 60, 60, 0]`, threshold 45 and 15 ms dwell the
claim's run length `⌈1.5⌉ = 2` predicts index 3 but the code's
`max(1, int(1.5)) = 1` returns 1. -/
theorem claim_C4_counterexample :
    (detect_start [50, 40, 45, 45] 100 45 20 = 0 ∧
      claimC4_start [50, 40, 45, 45] 100 45 20 = 2 ∧ (0 : ℕ) ≠ 2) ∧
    (detect_start [0, 50, 0, 60, 60, 0] 100 45 15 = 1 ∧
      claimC4_start [0, 50, 0, 60, 60, 0] 100 45 15 = 3 ∧ (1 : ℕ) ≠ 3) := by
  decide

/-- C4 (amended): for every signal, rate, threshold and dwell duration,
`detect_start` returns the first index beginning a run of
`max(1, ⌊(dwell/1000)·rate⌋)` values all strictly greater than the
threshold (the run's first index); if no such run exists it returns the
first-occurrence argmax; empty input gives 0 — stated as equality with
the declarative `spec_detect_start`. -/
theorem claim_C4_start (gyro_mag : List ℚ) (hz threshold_deg_s : ℚ) (min_ms : ℕ) :
    detect_start gyro_mag hz threshold_deg_s min_ms
      = spec_detect_start gyro_mag hz threshold_deg_s min_ms :=
  detect_start_eq_spec gyro_mag hz threshold_deg_s min_ms

/-- C5 counterexample: on `[0, 20, 5, 100, 0]` at 100 Hz with threshold
1.5 g and 25 ms refractory, the claim's window of `⌈2.5⌉ = 3` samples
captures the 100 at index 3, but the code's window of
`max(1, int(2.5)) = 2` samples returns the crossing index 1. -/
theorem claim_C5_counterexample :
    detect_impact [0, 20, 5, 100, 0] 100 (3/2) 25 0 = 1 ∧
      claimC5_impact [0, 20, 5, 100, 0] 100 (3/2) 25 0 = 3 ∧ (1 : ℕ) ≠ 3 := by
  decide

/-- C5 (amended): `detect_impact` scans from the search-start for the
first value `≥ g·9.81` and returns the first-occurrence argmax of the
window of the following `max(1, ⌊(refractory/1000)·rate⌋)` samples; if
the threshold is never reached it returns the first-occurrence argmax
of the whole signal — stated as equality with the declarative
`spec_detect_impact`; on a constant 5 m/s² signal with a 10 g threshold
the fallback deterministically returns index 0. -/
theorem claim_C5_impact :
    (∀ (accel_mag : List ℚ) (hz threshold_g : ℚ) (refractory_ms : ℕ) (start_from : ℤ),
      detect_impact accel_mag hz threshold_g refractory_ms start_from
        = spec_detect_impact accel_mag hz threshold_g refractory_ms start_from) ∧
    detect_impact (List.replicate 100 (5 : ℚ)) 100 10 25 0 = 0 :=
  ⟨detect_impact_eq_spec, by decide⟩

/-- C1 counterexample: samples with gyro magnitude `[30, 30, 0]` at
`dt = 0.07 s`, thresholds 25/10, `minDuration = 0.25 s`,
`minGap = 0.07 s`: the segmenter emits the single range `(0, 2)` of
length 3, below the claim's `minLen = ⌈0.25·(1/0.07)⌉ = 4` (the code
uses `max(1, int(0.25/0.07)) = 3`). -/
theorem claim_C1_counterexample :
    segment_swings exSeg (7/100) 25 10 (1/4) (7/100) = [(0, 2)] ∧
      2 + 1 - 0 < ⌈(1/4 : ℚ) * (1 / (7/100))⌉₊ := by
  constructor
  · decide
  · have : ⌈(1/4 : ℚ) * (1 / (7/100))⌉₊ = 4 := by
      rw [show (1/4 : ℚ) * (1 / (7/100)) = 25/7 by norm_num]
      rw [Nat.ceil_eq_iff (by norm_num)]
      norm_num
    omega

/-- C1 (amended): for every sample stream, `dt > 0`, thresholds
`startThr > endThr > 0` and positive minimum-duration and minimum-gap
parameters, the ranges returned by `segment_swings` are contiguous
(`start ≤ end < N`), pairwise non-overlapping, in ascending start-index
order, and each has length `≥ minLen = max(1, ⌊minDur/max(dt,1e-6)⌋)`
(the code's floor-based length, not the claim's ceiling). -/
theorem claim_C1_segmenter (samples : List Sample) (dt sThr eThr mDur mGap : ℚ)
    (hdt : 0 < dt) (hthr : eThr < sThr) (hethr : 0 < eThr)
    (hdur : 0 < mDur) (hgapp : 0 < mGap) :
    (∀ p ∈ segment_swings samples dt sThr eThr mDur mGap,
      p.1 ≤ p.2 ∧ p.2 < samples.length ∧
        max 1 (pyInt (mDur / max dt (1/1000000))).toNat ≤ p.2 + 1 - p.1) ∧
    (segment_swings samples dt sThr eThr mDur mGap).Pairwise
      (fun a b => a.2 < b.1 ∧ a.1 < b.1) := by
  obtain ⟨h1, h2⟩ := seg_go_inv sThr eThr (max 1 (pyInt (mDur / max dt (1/1000000))).toNat)
    (max 1 (pyInt (mGap / max dt (1/1000000))).toNat) (le_max_left _ _)
    (compute_gyro_mag samples) 0 false 0 0 []
    (by simp) (by simp) (by simp) List.Pairwise.nil
  simp only [segment_swings]
  constructor
  · intro p hp
    obtain ⟨c1, c2, c3⟩ := h1 p hp
    refine ⟨c1, ?_, c2⟩
    have : (compute_gyro_mag samples).length = samples.length := by
      simp [compute_gyro_mag]
    omega
  · refine List.Pairwise.imp_of_mem ?_ h2
    intro a b ha hb hr
    exact ⟨hr, lt_of_le_of_lt (h1 a ha).1 hr⟩

/-- Witness for C1 (amended) at `exSeg` with `dt = 0.07 s`. -/
theorem claim_C1_witness :
    max 1 (pyInt ((1/4 : ℚ) / max (7/100) (1/1000000))).toNat ≤ 2 + 1 - 0 := by
  have h := claim_C1_segmenter exSeg (7/100) 25 10 (1/4) (7/100)
    (by norm_num) (by norm_num) (by norm_num) (by norm_num) (by norm_num)
  exact (h.1 (0, 2) (by decide)).2.2

/-- C7 (code bug): contrary to the totality guarantee, `compute_tempo`
raises an uncaught `IndexError` (modelled by `none`) on the nonempty,
well-formed stream `exCrash` (timestamps 0/0.01/0.02 s, gyro-y 0/5/10,
all accelerometer components zero) under the default configuration:
`detect_start` falls back to the argmax `N-1 = 2`, the guard leaves
`impact_idx = 0`, and the fallback top correction evaluates
`gyro_mag_s[3]` on the 3-element signal. -/
theorem claim_C7_crash :
    compute_tempo exCrash "gyro_y" 5 100 (3/2) 25 true = none := by
  decide

/-- C6 counterexample: `exGuard` (timestamps 0/0.01/0.02 s, gyro
magnitude `[0, 10, 0]`, accel magnitude `[5, 0, 0]`) has `N ≥ 2` and
non-degenerate (non-constant, not all-zero) signals, yet after the
plausibility guard `compute_tempo` returns `impact_idx = 0 <
start_idx = 1`: the re-run impact detector never reaches its threshold
and falls back to the whole-signal argmax, which precedes the start. -/
theorem claim_C6_counterexample :
    (compute_tempo exGuard "gyro_y" 5 100 (3/2) 25 true).map TempoResult.impact_idx
        = some 0 ∧
    (compute_tempo exGuard "gyro_y" 5 100 (3/2) 25 true).map TempoResult.start_idx
        = some 1 ∧
    2 ≤ exGuard.length ∧
    compute_gyro_mag exGuard = [0, 10, 0] ∧
    compute_accel_mag exGuard = [5, 0, 0] ∧
    ¬ (1 : ℕ) < 0 := by
  decide

/-- C6 (amended): after the plausibility guard (including the
conditional re-run of the impact detector from `start_idx`), the
returned indices satisfy `impact_idx ≥ start_idx` whenever the smoothed
accel magnitude meets the absolute threshold `g·9.81` at some index
at-or-after `start_idx`; strictness need not hold, and without such a
crossing the final impact index is the whole-signal argmax, which may
precede the start index. -/
theorem claim_C6_post_guard (samples : List Sample) (primary : String)
    (sThr : ℚ) (sMs : ℕ) (iG : ℚ) (rMs : ℕ) (fb : Bool) (r : TempoResult)
    (hr : compute_tempo samples primary sThr sMs iG rMs fb = some r)
    (hcross : ∃ k, r.start_idx ≤ k ∧
      k < (smooth_ema (compute_accel_mag samples) (1/5)).length ∧
      iG * (981/100) ≤ (smooth_ema (compute_accel_mag samples) (1/5)).getD k 0) :
    r.start_idx ≤ r.impact_idx := by
  simp only [compute_tempo] at hr
  split at hr
  · exact absurd hr (by simp)
  · split at hr
    · exact absurd hr (by simp)
    · split at hr
      · exact absurd hr (by simp)
      · injection hr with hrec
        subst hrec
        dsimp only at hcross ⊢
        split
        · rename_i himp
          obtain ⟨k, hk1, hk2, hk3⟩ := hcross
          have hge := detect_impact_ge (smooth_ema (compute_accel_mag samples) (1/5))
            (1 / max (estimate_dt samples) (1/1000000)) iG rMs
            ((detect_start (smooth_ema (compute_gyro_mag samples) (1/5))
              (1 / max (estimate_dt samples) (1/1000000)) sThr sMs : ℕ) : ℤ)
            ⟨k, by simpa using hk1, hk2, hk3⟩
          simpa using hge
        · rename_i himp
          omega

/-- Witness for C6 (amended) at `exIncreasing`: the smoothed accel
magnitude reaches the 1.5 g threshold at index 5 ≥ start_idx = 0, and
the returned result has `impact_idx = 5 ≥ start_idx = 0`. -/
theorem claim_C6_witness :
    compute_tempo exIncreasing "gyro_y" 5 100 (3/2) 25 true
        = some tempoIncreasingResult ∧
      tempoIncreasingResult.start_idx ≤ tempoIncreasingResult.impact_idx := by
  refine ⟨by decide, ?_⟩
  exact claim_C6_post_guard exIncreasing "gyro_y" 5 100 (3/2) 25 true
    tempoIncreasingResult (by decide) ⟨5, by decide, by decide, by decide⟩


/-- C3 counterexample: (a) on `exDecreasing` (start 0, impact 9) the
fallback recomputes `top_idx = 7`, but the claim's window "strictly
between start and impact" (indices 1..8, i.e. `drop 1`/`take 8` of the
smoothed gyro magnitude) has its minimum at index 8 — the code's window
`range(a, b)` with `b = max(a+1, min(N-1, impact-1))` excludes
`impact_idx - 1`; (b) on `exIncreasing` the initial downswing is
exactly 0.05 s (impact 5, start = provisional top = 0 at 100 Hz) and
the recomputed `downswing_s = 0.04 s` is smaller, not larger. -/
theorem claim_C3_counterexample :
    ((compute_tempo exDecreasing "gyro_y" 5 100 (3/2) 25 true).map TempoResult.start_idx
        = some 0 ∧
      (compute_tempo exDecreasing "gyro_y" 5 100 (3/2) 25 true).map TempoResult.impact_idx
        = some 9 ∧
      (compute_tempo exDecreasing "gyro_y" 5 100 (3/2) 25 true).map TempoResult.top_idx
        = some 7 ∧
      0 + 1 + argminFirst
          (((smooth_ema (compute_gyro_mag exDecreasing) (1/5)).drop (0 + 1)).take 8) = 8 ∧
      (7 : ℕ) ≠ 8) ∧
    (compute_tempo exIncreasing "gyro_y" 5 100 (3/2) 25 true = some tempoIncreasingResult ∧
      max 0 ((((5 : ℕ) : ℤ) - ((max 0 0 : ℕ) : ℤ)) * estimate_dt exIncreasing : ℚ) = 1/20 ∧
      detect_start (smooth_ema (compute_gyro_mag exIncreasing) (1/5))
        (1 / max (estimate_dt exIncreasing) (1/1000000)) 5 100 = 0 ∧
      detect_top (smooth_ema (axisOf exIncreasing "gyro_y") (1/5)) 0 = some 0 ∧
      detect_impact (smooth_ema (compute_accel_mag exIncreasing) (1/5))
        (1 / max (estimate_dt exIncreasing) (1/1000000)) (3/2) 25 1 = 5 ∧
      tempoIncreasingResult.downswing_s = 1/25 ∧ ¬ (1/20 : ℚ) < 1/25) := by
  decide

set_option maxHeartbeats 1000000 in
/-- C3 (amended): whenever fallback correction is enabled and the
downswing duration `max(0, (impact_idx − max(start_idx, top0))·dt)`
falls outside [0.12 s, 0.6 s], `compute_tempo` recomputes `top_idx`
exactly once, as `a + argmin` of the smoothed gyro magnitude over the
window `[a, b)` with `a = start_idx + 1` and
`b = max(a + 1, min(N − 1, impact_idx − 1))` — a window that generally
excludes `impact_idx − 1` and may degenerate to the single index
`start_idx + 1` — provided `b ≤ N` (otherwise the lookup raises);
`downswing_s` is then recomputed once from the new `top_idx`, and no
further correction happens (the returned fields are exactly the
one-correction values).  The recomputed downswing need not exceed the
original one. -/
theorem claim_C3_fallback (samples : List Sample) (primary : String)
    (sThr : ℚ) (sMs : ℕ) (iG : ℚ) (rMs : ℕ)
    (s top0 i1 : ℕ) (b : ℤ) (r : TempoResult)
    (hs : detect_start (smooth_ema (compute_gyro_mag samples) (1/5))
      (1 / max (estimate_dt samples) (1/1000000)) sThr sMs = s)
    (htop : detect_top (smooth_ema (axisOf samples primary) (1/5)) (s : ℤ) = some top0)
    (hi1 : (if detect_impact (smooth_ema (compute_accel_mag samples) (1/5))
        (1 / max (estimate_dt samples) (1/1000000)) iG rMs ((top0 : ℤ) + 1) ≤ s
      then detect_impact (smooth_ema (compute_accel_mag samples) (1/5))
        (1 / max (estimate_dt samples) (1/1000000)) iG rMs (s : ℤ)
      else detect_impact (smooth_ema (compute_accel_mag samples) (1/5))
        (1 / max (estimate_dt samples) (1/1000000)) iG rMs ((top0 : ℤ) + 1)) = i1)
    (hcond : max 0 ((((i1 : ℤ) - ((max s top0 : ℕ) : ℤ)) : ℤ) * estimate_dt samples : ℚ)
        < 12/100 ∨
      6/10 < max 0 ((((i1 : ℤ) - ((max s top0 : ℕ) : ℤ)) : ℤ) * estimate_dt samples : ℚ))
    (hb : max (((s + 1 : ℕ) : ℤ) + 1)
      (min (((smooth_ema (compute_gyro_mag samples) (1/5)).length : ℤ) - 1) ((i1 : ℤ) - 1)) = b)
    (hble : b ≤ ((smooth_ema (compute_gyro_mag samples) (1/5)).length : ℤ))
    (hr : compute_tempo samples primary sThr sMs iG rMs true = some r) :
    r.start_idx = s ∧ r.impact_idx = i1 ∧
    r.top_idx = (s + 1) + argminFirst
      (((smooth_ema (compute_gyro_mag samples) (1/5)).drop (s + 1)).take
        (b - ((s + 1 : ℕ) : ℤ)).toNat) ∧
    r.downswing_s = pyRound (max (1/1000000)
      ((i1 : ℚ) * estimate_dt samples - ((((s + 1) + argminFirst
        (((smooth_ema (compute_gyro_mag samples) (1/5)).drop (s + 1)).take
          (b - ((s + 1 : ℕ) : ℤ)).toNat) : ℕ)) : ℚ) * estimate_dt samples)) 6 := by
  simp only [compute_tempo] at hr
  split at hr
  · exact absurd hr (by simp)
  · rw [hs, htop] at hr
    dsimp only at hr
    rw [hi1, hb] at hr
    split at hr
    · exact absurd hr (by simp)
    · rename_i top1 heq
      injection hr with hrec
      subst hrec
      split at heq
      · split at heq
        · injection heq with htop1
          subst htop1
          exact ⟨rfl, rfl, rfl, rfl⟩
        · rename_i hneg
          refine absurd (show ((s + 1 : ℕ) : ℤ) < b from ?_) hneg
          rw [← hb]
          exact lt_of_lt_of_le (lt_add_one _) (le_max_left _ _)
      · rename_i hneg
        exact absurd ⟨trivial, hcond⟩ hneg

/-- Witness for C3 (amended) at `exIncreasing`: initial downswing
0.05 s < 0.12 s triggers the fallback; the corrected result is
`tempoIncreasingResult` with `top_idx = 1` and `downswing_s = 0.04 s`. -/
theorem claim_C3_witness :
    compute_tempo exIncreasing "gyro_y" 5 100 (3/2) 25 true = some tempoIncreasingResult ∧
    tempoIncreasingResult.start_idx = 0 ∧ tempoIncreasingResult.impact_idx = 5 ∧
    tempoIncreasingResult.top_idx = 1 ∧ tempoIncreasingResult.downswing_s = 1/25 := by
  have h := claim_C3_fallback exIncreasing "gyro_y" 5 100 (3/2) 25 0 0 5 4
    tempoIncreasingResult (by decide) (by decide) (by decide) (Or.inl (by decide))
    (by decide) (by decide) (by decide)
  refine ⟨by decide, h.1, h.2.1, ?_, ?_⟩
  · rw [h.2.2.1]; decide
  · rw [h.2.2.2]; decide

end ClaimTheorems
